import Mathlib

/-!
Verification of the rock-paper-scissors game logic
(`rock-paper-scissor-Game.py`): the choice model, outcome resolver,
statistics tracker, opponent strategies, round loop and persistence
round-trip, shallowly embedded as executable Lean definitions.

Randomness in the source (`random.choice(list(Choice))`) is modelled by
passing the drawn symbol explicitly as a `rand` argument; the trailing
`return random.choice(list(Choice))` after each counter-search loop is
modelled by a separate `fb` (fallback) argument, so that its
unreachability can be stated as independence from `fb`.
-/

namespace RPS

/-- The three throwable symbols, `class Choice(Enum)`. -/
inductive Choice where
  | ROCK
  | PAPER
  | SCISSORS
  deriving DecidableEq, Repr

/-- `choice.key`: the single-letter code attached to each enum member. -/
def Choice.key : Choice → String
  | .ROCK => "r"
  | .PAPER => "p"
  | .SCISSORS => "s"

/-- The `winning_combinations` dict inside `Choice.beats`. -/
def winning_combinations : Choice → Choice
  | .ROCK => .SCISSORS
  | .SCISSORS => .PAPER
  | .PAPER => .ROCK

/-- `Choice.beats`: `winning_combinations[self] == other`. -/
def Choice.beats (self other : Choice) : Bool :=
  winning_combinations self == other

/-- `list(Choice)`: the members in declaration order. -/
def listChoice : List Choice :=
  [Choice.ROCK, Choice.PAPER, Choice.SCISSORS]

/-- Possible game outcomes, `class GameResult(Enum)`. -/
inductive GameResult where
  | WIN
  | LOSS
  | TIE
  deriving DecidableEq, Repr

/-- `@dataclass class GameStats`, with the Python default values. -/
structure GameStats where
  wins : Nat := 0
  losses : Nat := 0
  ties : Nat := 0
  total_games : Nat := 0
  choice_history : List Choice := []
  deriving DecidableEq, Repr

/-- `GameStats.win_rate`:
`(self.wins / self.total_games * 100) if self.total_games > 0 else 0.0`,
with exact rational arithmetic standing in for Python floats. -/
def GameStats.win_rate (s : GameStats) : ℚ :=
  if s.total_games > 0 then (s.wins : ℚ) / (s.total_games : ℚ) * 100 else 0

/-- `GameStats.update`: increments `total_games`, appends the choice to
`choice_history`, and increments the counter matching the result. -/
def GameStats.update (s : GameStats) (result : GameResult) (choice : Choice) :
    GameStats :=
  let s' := { s with total_games := s.total_games + 1,
                     choice_history := s.choice_history ++ [choice] }
  match result with
  | .WIN => { s' with wins := s'.wins + 1 }
  | .LOSS => { s' with losses := s'.losses + 1 }
  | .TIE => { s' with ties := s'.ties + 1 }

/-- `RandomStrategy.make_choice`: `random.choice(list(Choice))`, with the
drawn symbol passed explicitly. -/
def RandomStrategy.make_choice (rand : Choice) : Choice := rand

/-- `set(history)` as iterated over by `max` in
`CounterStrategy.make_choice`: the distinct members of the history.
Python's set iteration order is unspecified; it is modelled by the fixed
enumeration order of `Choice`, which the claims' arbitrary tie-breaking
allows. -/
def history_set (h : List Choice) : List Choice :=
  listChoice.filter (fun c => decide (c ∈ h))

/-- `max(set(history), key=history.count)`: Python's `max` keeps the
first element whose key no later element strictly exceeds. The `[]`
branch is never taken for a non-empty history. -/
def most_common (h : List Choice) : Choice :=
  match history_set h with
  | [] => Choice.ROCK
  | x :: rest =>
      rest.foldl (fun best c => if h.count best < h.count c then c else best) x

/-- `CounterStrategy.make_choice`: random fallback on empty history,
otherwise the first `Choice` member that beats the most common historical
choice; `fb` models the trailing `random.choice` after the loop. -/
def CounterStrategy.make_choice (rand fb : Choice)
    (choice_history : List Choice) : Choice :=
  if choice_history = [] then rand
  else
    match listChoice.find? (fun c => c.beats (most_common choice_history)) with
    | some c => c
    | none => fb

/-- `PatternStrategy.make_choice`: random fallback on history shorter
than 3; otherwise predicts a repeat when the last two moves are equal
(and a fresh random draw otherwise) and returns the first `Choice`
member beating the prediction; `fb` models the trailing
`random.choice` after the loop. -/
def PatternStrategy.make_choice (rand fb : Choice)
    (history : List Choice) : Choice :=
  if history.length < 3 then rand
  else
    let predicted :=
      match history.reverse with
      | lastc :: secondc :: _ => if lastc = secondc then lastc else rand
      | _ => rand
    match listChoice.find? (fun c => c.beats predicted) with
    | some c => c
    | none => fb

/-- The unique `Choice` member that beats a given symbol. -/
def counter_of : Choice → Choice
  | .ROCK => .PAPER
  | .PAPER => .SCISSORS
  | .SCISSORS => .ROCK

/-- `RockPaperScissorsGame._determine_result`. -/
def determine_result (choice1 choice2 : Choice) : GameResult :=
  if choice1 = choice2 then .TIE
  else if choice1.beats choice2 then .WIN
  else .LOSS

/-- `record_rounds`: a sequence of `update` calls applied to
initially-empty statistics, one per recorded round. -/
def record_rounds (ops : List (GameResult × Choice)) : GameStats :=
  ops.foldl (fun s op => s.update op.1 op.2) {}

/-- The `computer_result` mapping dict in `play_round`: the logical
inverse of the human's result. -/
def computer_result_map : GameResult → GameResult
  | .WIN => .LOSS
  | .LOSS => .WIN
  | .TIE => .TIE

/-- The state produced by one round: the human's result and both updated
statistics trackers. -/
structure RoundState where
  result : GameResult
  human_stats : GameStats
  computer_stats : GameStats
  deriving DecidableEq, Repr

/-- The state change of `RockPaperScissorsGame.play_round`, with the two
collected moves passed explicitly: resolve the human's result, update the
human's stats with it, update the computer's stats with the inverse
result. -/
def play_round (human_choice computer_choice : Choice)
    (human_stats computer_stats : GameStats) : RoundState :=
  let result := determine_result human_choice computer_choice
  let human_stats' := human_stats.update result human_choice
  let computer_result := computer_result_map result
  let computer_stats' := computer_stats.update computer_result computer_choice
  { result := result, human_stats := human_stats',
    computer_stats := computer_stats' }

/-- The record written by `GameStats.to_dict` and serialized by
`GameConfig.save_game`. -/
structure SavedDict where
  wins : Nat
  losses : Nat
  ties : Nat
  total_games : Nat
  win_rate : ℚ
  choice_history : List String
  deriving DecidableEq, Repr

/-- `GameStats.to_dict`: the serialized form of the statistics, with the
history stored as the list of single-letter keys. -/
def GameStats.to_dict (s : GameStats) : SavedDict :=
  { wins := s.wins, losses := s.losses, ties := s.ties,
    total_games := s.total_games, win_rate := s.win_rate,
    choice_history := s.choice_history.map Choice.key }

/-- `GameConfig.save_game`: writes `stats.to_dict()` as the whole file
contents (the file modelled as an optional record). -/
def save_game (stats : GameStats) : Option SavedDict :=
  some stats.to_dict

/-- `GameConfig.load_game`: `none` when the file is absent ("no prior
stats"); otherwise a `GameStats` built from the stored counters only —
`choice_history` is left at its dataclass default `[]`, and `win_rate`
is the recomputed property, not a stored field. -/
def load_game (file : Option SavedDict) : Option GameStats :=
  match file with
  | none => none
  | some data =>
      some { wins := data.wins, losses := data.losses, ties := data.ties,
             total_games := data.total_games }

/-- A concrete stored record: one game recorded, non-empty stored
history. -/
def sampleSaved : SavedDict :=
  { wins := 1, losses := 0, ties := 0, total_games := 1,
    win_rate := 100, choice_history := ["r"] }

end RPS

namespace RPS

/-- Effect of one `update` on every field. -/
theorem update_fields (s : GameStats) (r : GameResult) (c : Choice) :
    (s.update r c).total_games = s.total_games + 1 ∧
    (s.update r c).choice_history = s.choice_history ++ [c] ∧
    (s.update r c).wins + (s.update r c).losses + (s.update r c).ties =
      s.wins + s.losses + s.ties + 1 ∧
    s.wins ≤ (s.update r c).wins ∧
    s.losses ≤ (s.update r c).losses ∧
    s.ties ≤ (s.update r c).ties := by
  cases r <;> refine ⟨rfl, rfl, ?_, ?_, ?_, ?_⟩ <;> simp [GameStats.update] <;>
    omega

/-- The fold invariant behind C3, generalised over the starting state. -/
theorem record_rounds_invariant (ops : List (GameResult × Choice))
    (s : GameStats) :
    (ops.foldl (fun s op => s.update op.1 op.2) s).total_games =
      s.total_games + ops.length ∧
    (ops.foldl (fun s op => s.update op.1 op.2) s).choice_history =
      s.choice_history ++ ops.map Prod.snd ∧
    (ops.foldl (fun s op => s.update op.1 op.2) s).wins +
      (ops.foldl (fun s op => s.update op.1 op.2) s).losses +
      (ops.foldl (fun s op => s.update op.1 op.2) s).ties =
      s.wins + s.losses + s.ties + ops.length := by
  induction ops generalizing s with
  | nil => simp
  | cons op rest ih =>
    obtain ⟨h1, h2, h3, -⟩ := update_fields s op.1 op.2
    obtain ⟨g1, g2, g3⟩ := ih (s.update op.1 op.2)
    simp only [List.foldl_cons, List.map_cons, List.length_cons]
    refine ⟨?_, ?_, ?_⟩
    · rw [g1, h1]; omega
    · rw [g2, h2]; simp
    · rw [g3]; omega

/-- C3: after any sequence of N record operations on initially-empty
statistics, total_games = N = wins + losses + ties = length of the choice
history; moreover each single operation only increments counters and
appends to the history (monotone, append-only growth). -/
theorem stats_sequence_invariant (ops : List (GameResult × Choice))
    (s : GameStats) (r : GameResult) (c : Choice) :
    ((record_rounds ops).total_games = ops.length ∧
     (record_rounds ops).total_games =
       (record_rounds ops).wins + (record_rounds ops).losses +
         (record_rounds ops).ties ∧
     (record_rounds ops).total_games =
       (record_rounds ops).choice_history.length) ∧
    ((s.update r c).total_games = s.total_games + 1 ∧
     (s.update r c).choice_history = s.choice_history ++ [c] ∧
     s.wins ≤ (s.update r c).wins ∧
     s.losses ≤ (s.update r c).losses ∧
     s.ties ≤ (s.update r c).ties ∧
     s.choice_history.length ≤ (s.update r c).choice_history.length) := by
  obtain ⟨h1, h2, h3⟩ := record_rounds_invariant ops {}
  simp only [record_rounds] at *
  simp at h1 h2 h3
  obtain ⟨u1, u2, u3, u4, u5, u6⟩ := update_fields s r c
  refine ⟨⟨h1, by omega, ?_⟩, u1, u2, u4, u5, u6, ?_⟩
  · rw [h1, h2]; simp
  · rw [u2]; simp

/-- C4: win_rate is 0 when total_games is 0, and 100 × wins / total_games
otherwise. -/
theorem win_rate_spec (s : GameStats) :
    (s.total_games = 0 → s.win_rate = 0) ∧
    (s.total_games ≠ 0 →
      s.win_rate = 100 * (s.wins : ℚ) / (s.total_games : ℚ)) := by
  constructor
  · intro h; simp [GameStats.win_rate, h]
  · intro h
    have : 0 < s.total_games := Nat.pos_of_ne_zero h
    simp only [GameStats.win_rate, if_pos this]
    ring

/-- Witness for C4 at a two-game state with one win. -/
theorem win_rate_spec_witness :
    ({ wins := 1, total_games := 2 : GameStats }).win_rate =
      100 * (({ wins := 1, total_games := 2 : GameStats }).wins : ℚ) /
        (({ wins := 1, total_games := 2 : GameStats }).total_games : ℚ) :=
  (win_rate_spec { wins := 1, total_games := 2 }).2 (by decide)

/-- The counter-search loop `for choice in Choice: if choice.beats(...)`
always finds a symbol, namely `counter_of` of its target. -/
theorem find_counter_eq (m : Choice) :
    listChoice.find? (fun c => c.beats m) = some (counter_of m) := by
  cases m <;> rfl

/-- `counter_of m` beats `m`. -/
theorem counter_of_beats (m : Choice) : (counter_of m).beats m = true := by
  cases m <;> rfl

/-- A symbol is in `history_set h` exactly when it occurs in `h`. -/
theorem mem_history_set (h : List Choice) (c : Choice) :
    c ∈ history_set h ↔ c ∈ h := by
  cases c <;> simp [history_set, listChoice]

/-- The max-by-count fold returns one of its inputs. -/
theorem foldl_max_mem (h l : List Choice) (x : Choice) :
    l.foldl (fun best c => if h.count best < h.count c then c else best) x ∈
      x :: l := by
  induction l generalizing x with
  | nil => simp
  | cons y t ih =>
    simp only [List.foldl_cons]
    by_cases hxy : h.count x < h.count y
    · rw [if_pos hxy]
      exact List.mem_cons_of_mem x (ih y)
    · rw [if_neg hxy]
      rcases List.mem_cons.mp (ih x) with h1 | h1
      · rw [h1]; exact List.mem_cons_self _ _
      · exact List.mem_cons_of_mem x (List.mem_cons_of_mem y h1)

/-- The max-by-count fold dominates the count of every input. -/
theorem foldl_max_count (h l : List Choice) (x : Choice) :
    ∀ c ∈ x :: l, h.count c ≤
      h.count (l.foldl
        (fun best c => if h.count best < h.count c then c else best) x) := by
  induction l generalizing x with
  | nil =>
    intro c hc
    simp only [List.foldl_nil]
    rcases List.mem_cons.mp hc with rfl | h1
    · exact le_refl _
    · cases h1
  | cons y t ih =>
    intro c hc
    simp only [List.foldl_cons]
    by_cases hxy : h.count x < h.count y
    · rw [if_pos hxy]
      rcases List.mem_cons.mp hc with rfl | h1
      · exact le_trans (le_of_lt hxy) (ih y y (List.mem_cons_self _ _))
      · exact ih y c h1
    · rw [if_neg hxy]
      rcases List.mem_cons.mp hc with rfl | h1
      · exact ih c c (List.mem_cons_self _ _)
      · rcases List.mem_cons.mp h1 with rfl | h2
        · exact le_trans (Nat.le_of_not_lt hxy) (ih x x (List.mem_cons_self _ _))
        · exact ih x c (List.mem_cons_of_mem x h2)

/-- Unfolding `most_common` on a non-empty `history_set`. -/
theorem most_common_cons (h : List Choice) (x : Choice) (rest : List Choice)
    (hs : history_set h = x :: rest) :
    most_common h =
      rest.foldl (fun best c => if h.count best < h.count c then c else best)
        x := by
  unfold most_common
  rw [hs]

/-- The most common element of a non-empty history is a mode: it occurs
in the history and no symbol occurs more often. -/
theorem most_common_is_mode (h : List Choice) (hne : h ≠ []) :
    most_common h ∈ h ∧
      ∀ c : Choice, h.count c ≤ h.count (most_common h) := by
  cases hs : history_set h with
  | nil =>
    exfalso
    cases h with
    | nil => exact hne rfl
    | cons x t =>
      have hx : x ∈ history_set (x :: t) :=
        (mem_history_set (x :: t) x).mpr (List.mem_cons_self x t)
      rw [hs] at hx
      exact absurd hx (List.not_mem_nil x)
  | cons x rest =>
    have hmem : most_common h ∈ x :: rest := by
      rw [most_common_cons h x rest hs]
      exact foldl_max_mem h rest x
    rw [← hs] at hmem
    refine ⟨(mem_history_set h _).mp hmem, ?_⟩
    intro c
    by_cases hc : c ∈ h
    · have hc' : c ∈ x :: rest := by
        rw [← hs]
        exact (mem_history_set h c).mpr hc
      rw [most_common_cons h x rest hs]
      exact foldl_max_count h rest x c hc'
    · rw [List.count_eq_zero.mpr hc]
      exact Nat.zero_le _

/-- C5: on a non-empty history the Counter-Most-Frequent strategy beats a
mode of the history (an element of maximal count, ties broken by the
model's fixed enumeration order); on [Rock, Rock, Rock] it returns Paper;
on the empty history it returns the random draw. -/
theorem counter_strategy_spec (rand fb : Choice) (h : List Choice)
    (hne : h ≠ []) :
    ((CounterStrategy.make_choice rand fb h).beats (most_common h) = true ∧
     most_common h ∈ h ∧
     ∀ c : Choice, h.count c ≤ h.count (most_common h)) ∧
    CounterStrategy.make_choice rand fb
      [Choice.ROCK, Choice.ROCK, Choice.ROCK] = Choice.PAPER ∧
    CounterStrategy.make_choice rand fb [] = rand := by
  obtain ⟨hm, hcount⟩ := most_common_is_mode h hne
  refine ⟨⟨?_, hm, hcount⟩, rfl, rfl⟩
  simp only [CounterStrategy.make_choice, if_neg hne, find_counter_eq]
  exact counter_of_beats _

/-- Witness for C5 at the singleton history [Rock]. -/
theorem counter_strategy_spec_witness :
    (CounterStrategy.make_choice Choice.ROCK Choice.ROCK
        [Choice.ROCK]).beats (most_common [Choice.ROCK]) = true :=
  (counter_strategy_spec Choice.ROCK Choice.ROCK [Choice.ROCK]
    (by decide)).1.1

/-- C6: with history of length at least 3 ending in two identical moves,
the Counter-Last-Repeat strategy deterministically returns the symbol
beating the repeated move (in particular Rock after [..., Scissors,
Scissors]); with shorter history it returns the random draw itself; with
the last two moves distinct it returns the symbol beating the fresh
random draw. Since `counter_of` is a bijection and every draw `r` is
`counter_of` of the symbol it beats, a uniformly drawn return value is
exactly a symbol beating a uniformly distributed prediction. -/
theorem pattern_strategy_spec (rand fb : Choice) (h t : List Choice)
    (m x y : Choice) :
    (h.length < 3 → PatternStrategy.make_choice rand fb h = rand) ∧
    (h = t ++ [m, m] → 3 ≤ h.length →
      PatternStrategy.make_choice rand fb h = counter_of m ∧
        (counter_of m).beats m = true) ∧
    (h = t ++ [y, x] → x ≠ y → 3 ≤ h.length →
      PatternStrategy.make_choice rand fb h = counter_of rand ∧
        (counter_of rand).beats rand = true) ∧
    (∀ r : Choice, counter_of (winning_combinations r) = r) ∧
    Function.Bijective counter_of := by
  refine ⟨?_, ?_, ?_, ?_, ?_⟩
  case refine_4 => intro r; cases r <;> rfl
  case refine_5 =>
    constructor
    · intro a b hab
      cases a <;> cases b <;> first | rfl | exact absurd hab (by decide)
    · intro b
      cases b <;> [exact ⟨Choice.SCISSORS, rfl⟩; exact ⟨Choice.ROCK, rfl⟩;
        exact ⟨Choice.PAPER, rfl⟩]
  · intro hlt
    simp [PatternStrategy.make_choice, hlt]
  · rintro rfl hlen
    refine ⟨?_, counter_of_beats m⟩
    have hnot : ¬ (t ++ [m, m]).length < 3 := by omega
    simp only [PatternStrategy.make_choice, if_neg hnot,
      List.reverse_append, List.reverse_cons, List.reverse_nil,
      List.nil_append, List.cons_append, if_pos rfl, find_counter_eq]
    simp
  · rintro rfl hxy hlen
    have hnot : ¬ (t ++ [y, x]).length < 3 := by omega
    refine ⟨?_, counter_of_beats rand⟩
    simp only [PatternStrategy.make_choice, if_neg hnot,
      List.reverse_append, List.reverse_cons, List.reverse_nil,
      List.nil_append, List.cons_append, if_neg hxy, find_counter_eq]

/-- Witness for C6 at the history [Rock, Scissors, Scissors]. -/
theorem pattern_strategy_spec_witness :
    PatternStrategy.make_choice Choice.PAPER Choice.PAPER
        [Choice.ROCK, Choice.SCISSORS, Choice.SCISSORS] =
      counter_of Choice.SCISSORS :=
  ((pattern_strategy_spec Choice.PAPER Choice.PAPER
      [Choice.ROCK, Choice.SCISSORS, Choice.SCISSORS] [Choice.ROCK]
      Choice.SCISSORS Choice.ROCK Choice.ROCK).2.1 (by decide)
    (by decide)).1

/-- C8: every strategy returns one of the three valid symbols on every
history, the counter-search loop always finds a symbol (for every target
some symbol beats it), and the trailing fallback is unreachable: the
result never depends on the `fb` argument. -/
theorem strategies_total (rand fb fb' : Choice) (h : List Choice) :
    RandomStrategy.make_choice rand ∈ listChoice ∧
    CounterStrategy.make_choice rand fb h ∈ listChoice ∧
    PatternStrategy.make_choice rand fb h ∈ listChoice ∧
    CounterStrategy.make_choice rand fb h =
      CounterStrategy.make_choice rand fb' h ∧
    PatternStrategy.make_choice rand fb h =
      PatternStrategy.make_choice rand fb' h ∧
    ∀ m : Choice, (listChoice.find? (fun c => c.beats m)).isSome = true := by
  have hmem : ∀ c : Choice, c ∈ listChoice := by intro c; cases c <;> simp [listChoice]
  refine ⟨hmem _, hmem _, hmem _, ?_, ?_, ?_⟩
  · by_cases hne : h = [] <;>
      simp [CounterStrategy.make_choice, hne, find_counter_eq]
  · by_cases hlt : h.length < 3
    · simp [PatternStrategy.make_choice, hlt]
    · simp only [PatternStrategy.make_choice, if_neg hlt, find_counter_eq]
  · intro m
    rw [find_counter_eq m]
    rfl

/-- C1: the outcome resolver is total over all nine symbol pairs and
returns Tie exactly on equal symbols, Win exactly when the challenger's
symbol beats the opponent's under the cyclic relation Rock>Scissors,
Scissors>Paper, Paper>Rock, and Loss in every remaining case. -/
theorem determine_result_spec (a b : Choice) :
    (determine_result a b = GameResult.TIE ↔ a = b) ∧
    (determine_result a b = GameResult.WIN ↔
      ((a = Choice.ROCK ∧ b = Choice.SCISSORS) ∨
       (a = Choice.SCISSORS ∧ b = Choice.PAPER) ∨
       (a = Choice.PAPER ∧ b = Choice.ROCK))) ∧
    (determine_result a b = GameResult.LOSS ↔
      ((b = Choice.ROCK ∧ a = Choice.SCISSORS) ∨
       (b = Choice.SCISSORS ∧ a = Choice.PAPER) ∨
       (b = Choice.PAPER ∧ a = Choice.ROCK))) := by
  cases a <;> cases b <;> decide

/-- C2: the outcome is Tie iff the symbols are equal; on distinct symbols
exactly one direction wins (antisymmetry of the cyclic beats-relation);
and no symbol beats itself. -/
theorem outcome_antisymmetry (a b : Choice) :
    (determine_result a b = GameResult.TIE ↔ a = b) ∧
    (determine_result a b = GameResult.WIN ↔
      (a ≠ b ∧ determine_result b a ≠ GameResult.WIN)) ∧
    a.beats a = false := by
  cases a <;> cases b <;> decide

/-- C7: in every round the human's recorded result is the resolver's
outcome for (human move, computer move), the computer's is its logical
inverse (Win↔Loss, Tie unchanged), and both total_games counters grow by
exactly one; concretely Rock vs Scissors from empty stats gives human
Win, computer Loss, and both totals 1. -/
theorem play_round_spec (hc cc : Choice) (hs cs : GameStats) :
    (play_round hc cc hs cs).result = determine_result hc cc ∧
    (play_round hc cc hs cs).human_stats =
      hs.update (determine_result hc cc) hc ∧
    (play_round hc cc hs cs).computer_stats =
      cs.update (computer_result_map (determine_result hc cc)) cc ∧
    computer_result_map GameResult.WIN = GameResult.LOSS ∧
    computer_result_map GameResult.LOSS = GameResult.WIN ∧
    computer_result_map GameResult.TIE = GameResult.TIE ∧
    (play_round hc cc hs cs).human_stats.total_games = hs.total_games + 1 ∧
    (play_round hc cc hs cs).computer_stats.total_games =
      cs.total_games + 1 ∧
    (play_round Choice.ROCK Choice.SCISSORS {} {}).result =
      GameResult.WIN ∧
    (play_round Choice.ROCK Choice.SCISSORS {} {}).human_stats.wins = 1 ∧
    (play_round Choice.ROCK Choice.SCISSORS {} {}).computer_stats.losses
      = 1 ∧
    (play_round Choice.ROCK Choice.SCISSORS {} {}).human_stats.total_games
      = 1 ∧
    (play_round Choice.ROCK Choice.SCISSORS
      {} {}).computer_stats.total_games = 1 := by
  obtain ⟨u1, -⟩ := update_fields hs (determine_result hc cc) hc
  obtain ⟨v1, -⟩ :=
    update_fields cs (computer_result_map (determine_result hc cc)) cc
  exact ⟨rfl, rfl, rfl, rfl, rfl, rfl, u1, v1, rfl, rfl, rfl, rfl, rfl⟩

/-- C9: saving then loading restores the four counters exactly; the
loaded win_rate is recomputed from the restored counters (altering the
stored win_rate field cannot change the loaded statistics); a missing
file loads as `none` ("no prior stats"). -/
theorem save_load_roundtrip (s : GameStats) (d : SavedDict) (q : ℚ) :
    (load_game (save_game s)).map GameStats.wins = some s.wins ∧
    (load_game (save_game s)).map GameStats.losses = some s.losses ∧
    (load_game (save_game s)).map GameStats.ties = some s.ties ∧
    (load_game (save_game s)).map GameStats.total_games =
      some s.total_games ∧
    (load_game (save_game s)).map GameStats.win_rate = some s.win_rate ∧
    load_game (some { d with win_rate := q }) = load_game (some d) ∧
    load_game none = none :=
  ⟨rfl, rfl, rfl, rfl, rfl, rfl, rfl⟩

/-- C10: every successfully loaded file yields statistics whose
choice_history is empty regardless of the stored history list, so
whenever the stored total_games is positive the loaded state violates
total_games = choice_history.length. -/
theorem load_game_empty_history (d : SavedDict) :
    (load_game (some d)).map GameStats.choice_history = some [] ∧
    (0 < d.total_games →
      (load_game (some d)).map
          (fun t => decide (t.total_games = t.choice_history.length)) =
        some false) := by
  refine ⟨rfl, ?_⟩
  intro hpos
  simp only [load_game, Option.map_some']
  simp
  omega

/-- Witness for C10 at a stored record with one game and a non-empty
stored history. -/
theorem load_game_empty_history_witness :
    (load_game (some sampleSaved)).map
        (fun t => decide (t.total_games = t.choice_history.length)) =
      some false :=
  (load_game_empty_history sampleSaved).2 (by decide)

/-- Witness for C2 at (Rock, Paper). -/
theorem outcome_antisymmetry_witness :
    (determine_result Choice.ROCK Choice.PAPER = GameResult.TIE ↔
      Choice.ROCK = Choice.PAPER) ∧
    (determine_result Choice.ROCK Choice.PAPER = GameResult.WIN ↔
      (Choice.ROCK ≠ Choice.PAPER ∧
        determine_result Choice.PAPER Choice.ROCK ≠ GameResult.WIN)) ∧
    Choice.ROCK.beats Choice.ROCK = false :=
  outcome_antisymmetry Choice.ROCK Choice.PAPER

end RPS
